import Mathlib

/-!
Verification of the pull-request gatekeeper action (`src/main.ts`).

The development shallowly embeds the TypeScript source: each `def` below
translates one function of `src/main.ts` (the translated function is named in
its doc comment), external API calls (octokit) become explicit state passing
over pure data, and thrown JS exceptions become `Except String` results.
-/

set_option autoImplicit false

namespace GhAction

/-! ## Reference scanning (`getIssuesIdsFromText`, src/main.ts lines 27-38) -/

/-- One emitted regex match: a `#` followed by the accumulated digits
(`acc` holds the digits in reverse order).  An empty accumulator emits
nothing. -/
def flushRef (acc : List Char) : List String :=
  if acc = [] then [] else [String.mk ('#' :: acc.reverse)]

/-- Left-to-right global matching of the regex `(#\d+)/g` from
`getIssuesIdsFromText`: the state is `none` outside a candidate match and
`some acc` after a `#` with `acc` the digits matched so far (reversed).
Matches are greedy (maximal digit runs) and returned in order of
appearance, duplicates included. -/
def scanRefsAux : List Char → Option (List Char) → List String
  | [], none => []
  | [], some acc => flushRef acc
  | c :: rest, none =>
      if c = '#' then scanRefsAux rest (some []) else scanRefsAux rest none
  | c :: rest, some acc =>
      if c.isDigit then scanRefsAux rest (some (c :: acc))
      else if c = '#' then flushRef acc ++ scanRefsAux rest (some [])
      else flushRef acc ++ scanRefsAux rest none

/-- All matches of `#\d+` in a character list, leftmost first. -/
def scanRefs (l : List Char) : List String := scanRefsAux l none

/-- Translation of `getIssuesIdsFromText` (src/main.ts lines 27-38):
falsy input (`null`/`undefined`/empty string) yields `null`; a text without
`#` yields `null`; otherwise the global regex match, which is `null` when
there is no match. -/
def getIssuesIdsFromText (text : Option String) : Option (List String) :=
  match text with
  | none => none
  | some s =>
      if s = "" then none
      else if s.data.contains '#' = false then none
      else
        let m := scanRefs s.data
        if m = [] then none else some m

/-- `true` iff the text contains an occurrence of `#` immediately followed
by a decimal digit, i.e. iff the regex `#\d+` has a match. -/
def hasIssueRef : List Char → Bool
  | [] => false
  | [_] => false
  | c :: c2 :: rest => (c = '#' && c2.isDigit) || hasIssueRef (c2 :: rest)

/-- Whether the first character (if any) is a decimal digit. -/
def headIsDigit : List Char → Bool
  | [] => false
  | c :: _ => c.isDigit

/-- Shape of a well-formed reference token: `#` followed by one or more
decimal digits. -/
def isRefToken (t : String) : Bool :=
  match t.data with
  | '#' :: ds => !ds.isEmpty && ds.all Char.isDigit
  | _ => false

/-! ## Merging and deduplication (`mergeArrays`, `distinct`, `emptyOrNull`,
src/main.ts lines 41-62) -/

/-- Loop body of `mergeArrays`: a `null` input array is skipped; otherwise a
`null` accumulator is first replaced by `[]` and the array is concatenated. -/
def mergeStep {T : Type} (values : Option (List T)) (array : Option (List T)) :
    Option (List T) :=
  match array with
  | none => values
  | some a =>
    match values with
    | none => some ([] ++ a)
    | some v => some (v ++ a)

/-- Translation of `mergeArrays` (src/main.ts lines 41-52). -/
def mergeArrays {T : Type} (arrays : List (Option (List T))) : Option (List T) :=
  arrays.foldl mergeStep none

/-- Translation of `distinct` (src/main.ts lines 55-57):
`array.filter((item, index, self) => self.indexOf(item) === index)`. -/
def distinct {T : Type} [DecidableEq T] (array : List T) : List T :=
  (array.enum.filter fun p => array.indexOf p.2 == p.1).map Prod.snd

/-- Translation of `emptyOrNull` (src/main.ts lines 60-62). -/
def emptyOrNull {T : Type} (array : Option (List T)) : Bool :=
  match array with
  | none => true
  | some a => a.length == 0

/-- The concatenation of the non-absent arrays, in input order (`null`
entries contribute nothing). -/
def joinOpts {T : Type} (arrays : List (Option (List T))) : List T :=
  (arrays.map (fun o => o.getD [])).flatten

/-- Stated from the spec's words, for comparison with `distinct`:
deduplicate keeping the first occurrence of each token, preserving order
(`prev` is the list of elements already scanned). -/
def keepFirstAux {T : Type} [DecidableEq T] (prev : List T) : List T → List T
  | [] => []
  | x :: xs =>
    if x ∈ prev then keepFirstAux (prev ++ [x]) xs
    else x :: keepFirstAux (prev ++ [x]) xs

/-- Stated from the spec's words: first-occurrence-preserving dedup. -/
def keepFirst {T : Type} [DecidableEq T] (l : List T) : List T := keepFirstAux [] l

/-! ## Check suites and check runs (`markPreviousRunsAsNeutral`,
src/main.ts lines 121-169)

The octokit API becomes explicit state passing: the state is the list of
check suites for the pull request's head commit, each carrying the check
runs the API would report for it.  `octokit.checks.update` rewrites the
conclusion of the run with the given id; an injected list `failingIds`
says which update calls fail (modelling CollaboratorError on that call). -/

/-- A check run record: the fields of the octokit check-run object read or
written by the source (`id`, `name`, `status`, `conclusion`). -/
structure CheckRun where
  id : Nat
  name : String
  status : String
  conclusion : String
deriving DecidableEq, Repr

/-- A check suite record: its id, owning application name (`app.name`), the
`total_count` reported by `listForSuite`, and its check runs. -/
structure CheckSuite where
  id : Nat
  appName : String
  total_count : Nat
  runs : List CheckRun
deriving DecidableEq, Repr

/-- Translation of `requireValue` (src/main.ts lines 19-24): a missing or
falsy (empty) string throws `Missing value for <hint>`. -/
def requireValue (value : Option String) (hint : String) : Except String String :=
  match value with
  | none => .error ("Missing value for " ++ hint)
  | some v => if v = "" then .error ("Missing value for " ++ hint) else .ok v

/-- The filter of src/main.ts lines 152-154: a run is targeted when it is
named `Check Commit Messages` and its status is `completed`. -/
def isTargetRun (r : CheckRun) : Bool :=
  r.name == "Check Commit Messages" && r.status == "completed"

/-- Effect of `octokit.checks.update({check_run_id, conclusion: 'neutral'})`
on the state: the run with the given id (wherever it is) gets conclusion
`neutral`; nothing else changes. -/
def setConclusionNeutral (state : List CheckSuite) (runId : Nat) : List CheckSuite :=
  state.map fun s =>
    { s with runs := s.runs.map fun r =>
        if r.id = runId then { r with conclusion := "neutral" } else r }

/-- One `octokit.checks.update` call (src/main.ts lines 161-166): fails when
the id is in the injected failure set, otherwise rewrites the conclusion. -/
def updateRun (failingIds : List Nat) (state : List CheckSuite) (runId : Nat) :
    Except String (List CheckSuite) :=
  if runId ∈ failingIds then
    .error ("Failed to update check run " ++ toString runId)
  else .ok (setConclusionNeutral state runId)

/-- The inner `for` loop of src/main.ts lines 160-167: update every targeted
run in order; the source has no try/catch here, so the first failing update
aborts the loop. -/
def neutralizeRuns (failingIds : List Nat) :
    List Nat → List CheckSuite → Except String (List CheckSuite)
  | [], state => .ok state
  | runId :: rest, state =>
    match updateRun failingIds state runId with
    | .error e => .error e
    | .ok state2 => neutralizeRuns failingIds rest state2

/-- `octokit.checks.listForSuite`: the runs of the suite with the given id
in the current state (octokit resolves the id; an unknown id yields no runs). -/
def listForSuite (state : List CheckSuite) (suiteId : Nat) : List CheckRun :=
  match state.find? (fun s => s.id == suiteId) with
  | some s => s.runs
  | none => []

/-- The `total_count` field of the `listForSuite` response for a suite id. -/
def totalCountForSuite (state : List CheckSuite) (suiteId : Nat) : Nat :=
  match state.find? (fun s => s.id == suiteId) with
  | some s => s.total_count
  | none => 0

/-- Body of the outer `for` loop of src/main.ts lines 140-168 for one check
suite: list its runs, fail if `total_count > 250`, else update every
completed run named `Check Commit Messages` (an empty filter result just
continues). -/
def processSuite (failingIds : List Nat) (state : List CheckSuite) (suiteId : Nat) :
    Except String (List CheckSuite) :=
  if totalCountForSuite state suiteId > 250 then
    .error "More than 250 check runs are not supported"
  else
    neutralizeRuns failingIds
      (((listForSuite state suiteId).filter isTargetRun).map CheckRun.id) state

/-- The outer `for` loop over the github-actions suites (by id, in snapshot
order). -/
def processSuites (failingIds : List Nat) :
    List Nat → List CheckSuite → Except String (List CheckSuite)
  | [], state => .ok state
  | suiteId :: rest, state =>
    match processSuite failingIds state suiteId with
    | .error e => .error e
    | .ok state2 => processSuites failingIds rest state2

/-- Translation of `markPreviousRunsAsNeutral` (src/main.ts lines 121-169):
require the head sha, snapshot the suites for that ref, keep those owned by
the `GitHub Actions` app, and process each in order. -/
def markPreviousRunsAsNeutral (failingIds : List Nat) (headSha : Option String)
    (state : List CheckSuite) : Except String (List CheckSuite) :=
  match requireValue headSha "pr_head_sha" with
  | .error e => .error e
  | .ok _ =>
    processSuites failingIds
      ((state.filter fun s => s.appName == "GitHub Actions").map CheckSuite.id) state

/-- Stated from the spec's words, for comparison with the implementation:
a targeted (completed, same-named) run gets conclusion `neutral`; any other
run is untouched. -/
def neutralizeRunSpec (r : CheckRun) : CheckRun :=
  if isTargetRun r then { r with conclusion := "neutral" } else r

/-- Stated from the spec's words: the intended outcome of neutralization —
inside every suite owned by `GitHub Actions`, exactly the completed runs
named `Check Commit Messages` get conclusion `neutral`; every other run and
every other suite is untouched. -/
def neutralSpec (state : List CheckSuite) : List CheckSuite :=
  state.map fun s =>
    if s.appName == "GitHub Actions" then
      { s with runs := s.runs.map neutralizeRunSpec }
    else s

/-- Neutralize a run iff its id is in `ids` (cumulative effect of a batch of
update calls). -/
def neutralizeIf (ids : List Nat) (r : CheckRun) : CheckRun :=
  if r.id ∈ ids then { r with conclusion := "neutral" } else r

/-- Apply `neutralizeIf ids` to every run of every suite. -/
def applyIds (ids : List Nat) (state : List CheckSuite) : List CheckSuite :=
  state.map fun s => { s with runs := s.runs.map (neutralizeIf ids) }

/-- Ids of the targeted runs of one suite, as listed in the given state. -/
def targetsOf (state : List CheckSuite) (suiteId : Nat) : List Nat :=
  ((listForSuite state suiteId).filter isTargetRun).map CheckRun.id

/-- All targeted run ids over a list of suite ids, in processing order. -/
def collectTargets (state : List CheckSuite) : List Nat → List Nat
  | [] => []
  | sid :: rest => targetsOf state sid ++ collectTargets state rest

/-! ## Labels, pull-request properties, comment body, commit messages, and
the `run` entry point (src/main.ts lines 65-76, 172-179, 182-212, 215-225,
228-298) -/

/-- A pull-request label; only its `name` is read. -/
structure Label where
  name : String
deriving DecidableEq, Repr

/-- Translation of `skipValidation` (src/main.ts lines 172-179): scan the
labels for one named `skip-issue`. -/
def skipValidation : List Label → Bool
  | [] => false
  | label :: rest =>
    if label.name == "skip-issue" then true else skipValidation rest

/-- The message of `NotAPullRequestError` (src/main.ts lines 11-16). -/
def notAPullRequestMessage : String :=
  "Missing pull request data in the context object. This action must be used with a PR."

/-- The pull-request payload fields consumed by the source; each may be
absent in the webhook payload. -/
structure PullRequest where
  number : Nat
  title : Option String
  body : Option String
  headSha : Option String
deriving Repr

/-- Translation of `getIssuesIdsFromPullRequestProperties` (src/main.ts
lines 65-76): throws `NotAPullRequestError` on a missing pull request,
otherwise merges the scans of title and body. -/
def getIssuesIdsFromPullRequestProperties (pullRequest : Option PullRequest) :
    Except String (Option (List String)) :=
  match pullRequest with
  | none => .error notAPullRequestMessage
  | some pr =>
    .ok (mergeArrays [getIssuesIdsFromText pr.title, getIssuesIdsFromText pr.body])

/-- A commit as returned by the paginated commit listing: its sha and its
commit message. -/
structure Commit where
  sha : String
  message : String
deriving Repr

/-- Translation of `getIssueIdsFromCommitMessages` (src/main.ts lines
182-212): the loop body only inspects each commit message (the scan result
feeds a log line for commits without references); the `issueIds`
accumulator declared at the top is never appended to, and the function
returns `distinct issueIds`. -/
def getIssueIdsFromCommitMessages (commits : List Commit) : List String :=
  let issueIds : List String := []
  let issueIds := commits.foldl
    (fun acc item =>
      let _issuesIds := getIssuesIdsFromText (some item.message)
      acc)
    issueIds
  distinct issueIds

/-- Translation of `getPositiveCommentBody` (src/main.ts lines 215-225). -/
def getPositiveCommentBody (distinctIssuesIds : List String) : Except String String :=
  if distinctIssuesIds.length == 0 then
    .error "Expected a populated array of issues ids."
  else
    let emojis := ":sparkles: :cake: :sparkles:"
    if distinctIssuesIds.length == 1 then
      .ok ("Great! The PR references this issue: "
        ++ distinctIssuesIds.headD "" ++ " " ++ emojis)
    else
      .ok ("Great! The PR references these issues: "
        ++ String.intercalate ", " distinctIssuesIds ++ " " ++ emojis)

/-- The repository payload fields consumed (`repository.owner.login`,
`repository.name`); each may be absent. -/
structure Repo where
  ownerLogin : Option String
  name : Option String
deriving Repr

/-- Inputs of one `run` (src/main.ts lines 228-298): the event payload
fields consumed, the label set the API returns, the check-suite state for
the head commit, the injected set of failing update calls, and the HTTP
status the comment endpoint returns. -/
structure Env where
  repository : Option Repo
  pullRequest : Option PullRequest
  labels : List Label
  suites : List CheckSuite
  failingIds : List Nat
  commentStatus : Nat
deriving Repr

/-- Terminal observation of one `run`: `core.setFailed` with a message, the
early `return` on the skip label, or normal completion. -/
inductive Outcome where
  | failed (message : String)
  | skippedByLabel
  | success
deriving DecidableEq, Repr

/-- What `run` did: its outcome together with the body of the PR comment it
posted, if any. -/
structure RunResult where
  outcome : Outcome
  postedComment : Option String
deriving DecidableEq, Repr

/-- Translation of `run` (src/main.ts lines 228-298).  The `try/catch`
around the whole body turns any thrown error into `core.setFailed` with the
error's message; the comment request is issued before its status is
checked, so a non-2xx status still records the posted body. -/
def run (env : Env) : RunResult :=
  match requireValue (env.repository.bind Repo.ownerLogin) "owner" with
  | .error e => ⟨.failed e, none⟩
  | .ok _owner =>
  match requireValue (env.repository.bind Repo.name) "repository" with
  | .error e => ⟨.failed e, none⟩
  | .ok _repo =>
  match env.pullRequest with
  | none => ⟨.failed notAPullRequestMessage, none⟩
  | some pullRequest =>
  match markPreviousRunsAsNeutral env.failingIds pullRequest.headSha env.suites with
  | .error e => ⟨.failed e, none⟩
  | .ok _suites2 =>
  if skipValidation env.labels then ⟨.skippedByLabel, none⟩
  else
  match getIssuesIdsFromPullRequestProperties (some pullRequest) with
  | .error e => ⟨.failed e, none⟩
  | .ok issuesIdsInPullRequest =>
  if emptyOrNull issuesIdsInPullRequest then
    ⟨.failed "The pull request doesn\x27t reference any issue.", none⟩
  else
  match issuesIdsInPullRequest with
  | none => ⟨.failed "Program flow error: issues ids must be present here.", none⟩
  | some ids =>
  match getPositiveCommentBody (distinct ids) with
  | .error e => ⟨.failed e, none⟩
  | .ok body =>
  if env.commentStatus ≥ 300 then
    ⟨.failed ("Comment response does not indicate success "
        ++ toString env.commentStatus), some body⟩
  else ⟨.success, some body⟩

theorem mem_flushRef {acc : List Char} {t : String} (hd : acc.all Char.isDigit = true)
    (ht : t ∈ flushRef acc) : isRefToken t = true := by
  unfold flushRef at ht
  split at ht
  · simp at ht
  · next h =>
    simp only [List.mem_singleton] at ht
    subst ht
    unfold isRefToken
    simp only [String.data]
    simp only [List.isEmpty_eq_true, List.reverse_eq_nil_iff, Bool.and_eq_true,
      Bool.not_eq_true', List.all_reverse]
    exact ⟨by simpa using h, hd⟩

theorem scanRefsAux_tokens :
    ∀ (l : List Char) (st : Option (List Char)),
    (∀ acc, st = some acc → acc.all Char.isDigit = true) →
    ∀ t ∈ scanRefsAux l st, isRefToken t = true := by
  intro l
  induction l with
  | nil =>
    intro st hst t ht
    cases st with
    | none => simp [scanRefsAux] at ht
    | some acc => exact mem_flushRef (hst acc rfl) ht
  | cons c rest ih =>
    intro st hst t ht
    cases st with
    | none =>
      rw [scanRefsAux] at ht
      split at ht
      · exact ih (some []) (by intro a ha; cases ha; rfl) t ht
      · exact ih none (by intro a ha; cases ha) t ht
    | some acc =>
      rw [scanRefsAux] at ht
      have hacc : acc.all Char.isDigit = true := hst acc rfl
      split at ht
      · next hdig =>
        refine ih (some (c :: acc)) ?_ t ht
        intro a ha
        cases ha
        simp [hacc, hdig]
      · split at ht <;>
        · rw [List.mem_append] at ht
          rcases ht with ht | ht
          · exact mem_flushRef hacc ht
          · first
            | exact ih (some []) (by intro a ha; cases ha; rfl) t ht
            | exact ih none (by intro a ha; cases ha) t ht

theorem scanRefsAux_nil_of_no_ref :
    ∀ l : List Char,
      (hasIssueRef l = false → scanRefsAux l none = []) ∧
      (headIsDigit l = false → hasIssueRef l = false →
        scanRefsAux l (some []) = []) := by
  intro l
  induction l with
  | nil => exact ⟨fun _ => rfl, fun _ _ => rfl⟩
  | cons c rest ih =>
    constructor
    · intro hno
      rw [scanRefsAux]
      split
      · next hc =>
        subst hc
        refine ih.2 ?_ ?_
        · cases rest with
          | nil => rfl
          | cons c2 r2 =>
            simp only [hasIssueRef, headIsDigit] at hno ⊢
            simp only [Bool.or_eq_false_iff, Bool.and_eq_false_iff] at hno
            rcases hno.1 with h | h
            · simp at h
            · exact h
        · cases rest with
          | nil => rfl
          | cons c2 r2 =>
            simp only [hasIssueRef] at hno
            simp only [Bool.or_eq_false_iff] at hno
            exact hno.2
      · refine ih.1 ?_
        cases rest with
        | nil => rfl
        | cons c2 r2 =>
          simp only [hasIssueRef, Bool.or_eq_false_iff] at hno
          exact hno.2
    · intro hhead hno
      simp only [headIsDigit] at hhead
      rw [scanRefsAux]
      split
      · next h => exact absurd h (by simp [hhead])
      · split
        · next hc =>
          subst hc
          have h2 : scanRefsAux rest (some []) = [] := by
            refine ih.2 ?_ ?_
            · cases rest with
              | nil => rfl
              | cons c2 r2 =>
                simp only [hasIssueRef, headIsDigit] at hno ⊢
                simp only [Bool.or_eq_false_iff, Bool.and_eq_false_iff] at hno
                rcases hno.1 with h | h
                · simp at h
                · exact h
            · cases rest with
              | nil => rfl
              | cons c2 r2 =>
                simp only [hasIssueRef, Bool.or_eq_false_iff] at hno
                exact hno.2
          simp [flushRef, h2]
        · have h2 : scanRefsAux rest none = [] := by
            refine ih.1 ?_
            cases rest with
            | nil => rfl
            | cons c2 r2 =>
              simp only [hasIssueRef, Bool.or_eq_false_iff] at hno
              exact hno.2
          simp [flushRef, h2]

theorem scanRefsAux_ne_nil_of_ref :
    ∀ l : List Char,
      (hasIssueRef l = true → scanRefsAux l none ≠ []) ∧
      (∀ acc : List Char,
        (acc ≠ [] ∨ headIsDigit l = true ∨ hasIssueRef l = true) →
        scanRefsAux l (some acc) ≠ []) := by
  intro l
  induction l with
  | nil =>
    refine ⟨fun h => by simp [hasIssueRef] at h, ?_⟩
    intro acc hacc
    rcases hacc with h | h | h
    · simp [scanRefsAux, flushRef, h]
    · simp [headIsDigit] at h
    · simp [hasIssueRef] at h
  | cons c rest ih =>
    constructor
    · intro hyes
      rw [scanRefsAux]
      split
      · next hc =>
        subst hc
        refine ih.2 [] (Or.inr ?_)
        cases rest with
        | nil => simp [hasIssueRef] at hyes
        | cons c2 r2 =>
          simp only [hasIssueRef, Bool.or_eq_true, Bool.and_eq_true,
            decide_eq_true_eq] at hyes
          rcases hyes with ⟨_, hd⟩ | h
          · exact Or.inl hd
          · exact Or.inr h
      · next hc =>
        refine ih.1 ?_
        cases rest with
        | nil => simp [hasIssueRef] at hyes
        | cons c2 r2 =>
          simp only [hasIssueRef, Bool.or_eq_true, Bool.and_eq_true,
            decide_eq_true_eq] at hyes
          rcases hyes with ⟨h1, _⟩ | h
          · exact absurd h1 hc
          · exact h
    · intro acc hacc
      rw [scanRefsAux]
      split
      · next hdig =>
        exact ih.2 (c :: acc) (Or.inl (by simp))
      · next hdig =>
        have hflush : acc ≠ [] → flushRef acc ≠ [] := by
          intro h
          simp [flushRef, h]
        rcases hacc with h | h | h
        · split
          · simp [hflush h]
          · simp [hflush h]
        · simp only [headIsDigit] at h
          exact absurd h (by simpa using hdig)
        · -- a reference occurs somewhere in c :: rest
          split
          · next hc =>
            subst hc
            have : scanRefsAux rest (some []) ≠ [] := by
              refine ih.2 [] (Or.inr ?_)
              cases rest with
              | nil => simp [hasIssueRef] at h
              | cons c2 r2 =>
                simp only [hasIssueRef, Bool.or_eq_true, Bool.and_eq_true,
                  decide_eq_true_eq] at h
                rcases h with ⟨_, hd⟩ | h
                · exact Or.inl hd
                · exact Or.inr h
            simp [this]
          · next hc =>
            have : scanRefsAux rest none ≠ [] := by
              refine ih.1 ?_
              cases rest with
              | nil => simp [hasIssueRef] at h
              | cons c2 r2 =>
                simp only [hasIssueRef, Bool.or_eq_true, Bool.and_eq_true,
                  decide_eq_true_eq] at h
                rcases h with ⟨h1, _⟩ | h
                · exact absurd h1 hc
                · exact h
            simp [this]

theorem hash_mem_of_hasIssueRef :
    ∀ l : List Char, hasIssueRef l = true → '#' ∈ l := by
  intro l
  induction l with
  | nil => intro h; simp [hasIssueRef] at h
  | cons c rest ih =>
    intro h
    cases rest with
    | nil => simp [hasIssueRef] at h
    | cons c2 r2 =>
      simp only [hasIssueRef, Bool.or_eq_true, Bool.and_eq_true,
        decide_eq_true_eq] at h
      rcases h with ⟨h1, _⟩ | h
      · exact h1 ▸ List.mem_cons_self _ _
      · exact List.mem_cons_of_mem _ (ih h)

theorem foldl_mergeStep_some {T : Type} :
    ∀ (arrays : List (Option (List T))) (v : List T),
      arrays.foldl mergeStep (some v) = some (v ++ joinOpts arrays) := by
  intro arrays
  induction arrays with
  | nil => intro v; simp [joinOpts]
  | cons a rest ih =>
    intro v
    cases a with
    | none => simp [List.foldl_cons, mergeStep, ih, joinOpts]
    | some x =>
      simp only [List.foldl_cons, mergeStep, ih, joinOpts, List.map_cons,
        List.flatten, Option.getD_some]
      simp [List.append_assoc]

theorem mergeArrays_all_none {T : Type} :
    ∀ arrays : List (Option (List T)),
      (∀ a ∈ arrays, a = none) → mergeArrays arrays = none := by
  intro arrays
  induction arrays with
  | nil => intro _; rfl
  | cons a rest ih =>
    intro h
    have ha : a = none := h a (List.mem_cons_self _ _)
    subst ha
    exact ih fun b hb => h b (List.mem_cons_of_mem _ hb)

theorem mergeArrays_some {T : Type} :
    ∀ arrays : List (Option (List T)),
      (∃ a ∈ arrays, a ≠ none) → mergeArrays arrays = some (joinOpts arrays) := by
  intro arrays
  induction arrays with
  | nil => rintro ⟨a, ha, _⟩; simp at ha
  | cons a rest ih =>
    rintro ⟨b, hb, hbne⟩
    cases a with
    | none =>
      have hbr : b ∈ rest := by
        rcases List.mem_cons.1 hb with h | h
        · exact absurd h.symm (Ne.symm hbne)
        · exact h
      unfold mergeArrays at ih ⊢
      simp only [List.foldl_cons, mergeStep]
      rw [ih ⟨b, hbr, hbne⟩]
      simp [joinOpts]
    | some x =>
      unfold mergeArrays
      simp only [List.foldl_cons, mergeStep]
      rw [foldl_mergeStep_some]
      simp [joinOpts]

theorem distinct_go {T : Type} [DecidableEq T] :
    ∀ (suf pre : List T),
      ((List.enumFrom pre.length suf).filter
          (fun p => (pre ++ suf).indexOf p.2 == p.1)).map Prod.snd
        = keepFirstAux pre suf := by
  intro suf
  induction suf with
  | nil => intro pre; rfl
  | cons x xs ih =>
    intro pre
    have hsplit : pre ++ x :: xs = (pre ++ [x]) ++ xs := by
      simp
    have hlen : pre.length + 1 = (pre ++ [x]).length := by simp
    by_cases hx : x ∈ pre
    · have hidx : (pre ++ x :: xs).indexOf x = pre.indexOf x :=
        List.indexOf_append_of_mem hx
      have hlt : pre.indexOf x < pre.length := List.indexOf_lt_length.2 hx
      have hcond : ((pre ++ x :: xs).indexOf x == pre.length) = false := by
        rw [hidx]
        simp only [beq_eq_false_iff_ne, ne_eq]
        omega
      rw [List.enumFrom_cons, List.filter_cons]
      simp only [hcond, Bool.false_eq_true, if_false]
      rw [hsplit, hlen, ih (pre ++ [x])]
      simp [keepFirstAux, hx]
    · have hidx : (pre ++ x :: xs).indexOf x = pre.length + (x :: xs).indexOf x :=
        List.indexOf_append_of_not_mem hx
      have hcond : ((pre ++ x :: xs).indexOf x == pre.length) = true := by
        rw [hidx, List.indexOf_cons_self]
        simp
      rw [List.enumFrom_cons, List.filter_cons]
      simp only [hcond, if_true]
      rw [List.map_cons]
      rw [hsplit, hlen, ih (pre ++ [x])]
      simp [keepFirstAux, hx]

theorem distinct_eq_keepFirst {T : Type} [DecidableEq T] (l : List T) :
    distinct l = keepFirst l := by
  have h := distinct_go (T := T) l []
  simpa [distinct, keepFirst, List.enum] using h

theorem neutralizeIf_id (ids : List Nat) (r : CheckRun) :
    (neutralizeIf ids r).id = r.id := by
  unfold neutralizeIf; split <;> rfl

theorem neutralizeIf_name (ids : List Nat) (r : CheckRun) :
    (neutralizeIf ids r).name = r.name := by
  unfold neutralizeIf; split <;> rfl

theorem neutralizeIf_status (ids : List Nat) (r : CheckRun) :
    (neutralizeIf ids r).status = r.status := by
  unfold neutralizeIf; split <;> rfl

theorem isTargetRun_neutralizeIf (ids : List Nat) (r : CheckRun) :
    isTargetRun (neutralizeIf ids r) = isTargetRun r := by
  unfold isTargetRun
  rw [neutralizeIf_name, neutralizeIf_status]

theorem neutralizeIf_nil (r : CheckRun) : neutralizeIf [] r = r := by
  simp [neutralizeIf]

theorem neutralizeIf_neutralizeIf (ids2 ids : List Nat) (r : CheckRun) :
    neutralizeIf ids (neutralizeIf ids2 r) = neutralizeIf (ids2 ++ ids) r := by
  by_cases h2 : r.id ∈ ids2 <;> by_cases h1 : r.id ∈ ids <;>
    simp [neutralizeIf, h1, h2]

theorem applyIds_nil (state : List CheckSuite) : applyIds [] state = state := by
  have h : neutralizeIf [] = fun r => r := funext neutralizeIf_nil
  simp [applyIds, h]

theorem setConclusionNeutral_eq (state : List CheckSuite) (i : Nat) :
    setConclusionNeutral state i = applyIds [i] state := by
  unfold setConclusionNeutral applyIds neutralizeIf
  simp

theorem applyIds_applyIds (ids2 ids : List Nat) (state : List CheckSuite) :
    applyIds ids (applyIds ids2 state) = applyIds (ids2 ++ ids) state := by
  unfold applyIds
  rw [List.map_map]
  apply List.map_congr_left
  intro s _
  simp [Function.comp, List.map_map, neutralizeIf_neutralizeIf]

theorem find?_applyIds (ids : List Nat) (state : List CheckSuite) (sid : Nat) :
    (applyIds ids state).find? (fun s => s.id == sid)
      = (state.find? (fun s => s.id == sid)).map
          (fun s => { s with runs := s.runs.map (neutralizeIf ids) }) := by
  unfold applyIds
  rw [List.find?_map]
  rfl

theorem listForSuite_applyIds (ids : List Nat) (state : List CheckSuite) (sid : Nat) :
    listForSuite (applyIds ids state) sid
      = (listForSuite state sid).map (neutralizeIf ids) := by
  unfold listForSuite
  rw [find?_applyIds]
  cases state.find? (fun s => s.id == sid) <;> simp

theorem totalCountForSuite_applyIds (ids : List Nat) (state : List CheckSuite)
    (sid : Nat) :
    totalCountForSuite (applyIds ids state) sid = totalCountForSuite state sid := by
  unfold totalCountForSuite
  rw [find?_applyIds]
  cases state.find? (fun s => s.id == sid) <;> simp

theorem targetsOf_applyIds (ids : List Nat) (state : List CheckSuite) (sid : Nat) :
    targetsOf (applyIds ids state) sid = targetsOf state sid := by
  unfold targetsOf
  rw [listForSuite_applyIds, List.filter_map, List.map_map]
  have hp : (isTargetRun ∘ neutralizeIf ids) = isTargetRun := by
    funext r; exact isTargetRun_neutralizeIf ids r
  have hid : (CheckRun.id ∘ neutralizeIf ids) = CheckRun.id := by
    funext r; exact neutralizeIf_id ids r
  rw [hp, hid]

theorem collectTargets_applyIds (ids : List Nat) (state : List CheckSuite)
    (sids : List Nat) :
    collectTargets (applyIds ids state) sids = collectTargets state sids := by
  induction sids with
  | nil => rfl
  | cons sid rest ih => simp [collectTargets, targetsOf_applyIds, ih]

theorem neutralizeRuns_nil_fids :
    ∀ (ids : List Nat) (state : List CheckSuite),
      neutralizeRuns [] ids state = .ok (applyIds ids state) := by
  intro ids
  induction ids with
  | nil => intro state; rw [neutralizeRuns, applyIds_nil]
  | cons i rest ih =>
    intro state
    rw [neutralizeRuns]
    simp only [updateRun, List.not_mem_nil, if_false]
    rw [ih, setConclusionNeutral_eq, applyIds_applyIds]
    rfl

theorem neutralizeRuns_ok {fids : List Nat} :
    ∀ (ids : List Nat) (state st' : List CheckSuite),
      neutralizeRuns fids ids state = .ok st' →
      (∀ i ∈ ids, i ∉ fids) ∧ st' = applyIds ids state := by
  intro ids
  induction ids with
  | nil =>
    intro state st' h
    rw [neutralizeRuns] at h
    cases h
    exact ⟨by simp, (applyIds_nil _).symm⟩
  | cons i rest ih =>
    intro state st' h
    rw [neutralizeRuns] at h
    by_cases hf : i ∈ fids
    · simp [updateRun, hf] at h
    · simp only [updateRun, hf, if_false] at h
      obtain ⟨h1, h2⟩ := ih _ _ h
      refine ⟨?_, ?_⟩
      · intro j hj
        rcases List.mem_cons.1 hj with rfl | hj'
        · exact hf
        · exact h1 j hj'
      · rw [h2, setConclusionNeutral_eq, applyIds_applyIds]
        rfl

theorem processSuite_nil_fids (state : List CheckSuite) (sid : Nat)
    (h : totalCountForSuite state sid ≤ 250) :
    processSuite [] state sid = .ok (applyIds (targetsOf state sid) state) := by
  unfold processSuite
  rw [if_neg (by omega)]
  exact neutralizeRuns_nil_fids _ _

theorem processSuite_ok {fids : List Nat} {state st' : List CheckSuite} {sid : Nat}
    (h : processSuite fids state sid = .ok st') :
    totalCountForSuite state sid ≤ 250 ∧
    (∀ i ∈ targetsOf state sid, i ∉ fids) ∧
    st' = applyIds (targetsOf state sid) state := by
  unfold processSuite at h
  split at h
  · cases h
  · next hc =>
    obtain ⟨h1, h2⟩ := neutralizeRuns_ok _ _ _ h
    exact ⟨by omega, h1, h2⟩

theorem processSuites_nil_fids :
    ∀ (sids : List Nat) (state : List CheckSuite),
      (∀ sid ∈ sids, totalCountForSuite state sid ≤ 250) →
      processSuites [] sids state = .ok (applyIds (collectTargets state sids) state) := by
  intro sids
  induction sids with
  | nil =>
    intro state _
    rw [processSuites, collectTargets, applyIds_nil]
  | cons sid rest ih =>
    intro state h
    have hsid := h sid (List.mem_cons_self _ _)
    rw [processSuites, processSuite_nil_fids state sid hsid]
    show processSuites [] rest (applyIds (targetsOf state sid) state)
        = Except.ok (applyIds (collectTargets state (sid :: rest)) state)
    have hrest : ∀ sid' ∈ rest,
        totalCountForSuite (applyIds (targetsOf state sid) state) sid' ≤ 250 := by
      intro sid' h'
      rw [totalCountForSuite_applyIds]
      exact h sid' (List.mem_cons_of_mem _ h')
    rw [ih _ hrest, collectTargets_applyIds, applyIds_applyIds]
    rfl

theorem processSuites_ceiling :
    ∀ (sids : List Nat) (state : List CheckSuite),
      (∃ sid ∈ sids, totalCountForSuite state sid > 250) →
      processSuites [] sids state
        = .error "More than 250 check runs are not supported" := by
  intro sids
  induction sids with
  | nil =>
    rintro state ⟨sid, h, _⟩
    simp at h
  | cons sid0 rest ih =>
    rintro state ⟨sid, hmem, hbig⟩
    rw [processSuites]
    by_cases h0 : totalCountForSuite state sid0 > 250
    · unfold processSuite
      rw [if_pos h0]
    · have hs : sid ∈ rest := by
        rcases List.mem_cons.1 hmem with rfl | h
        · omega
        · exact h
      rw [processSuite_nil_fids state sid0 (by omega)]
      refine ih _ ⟨sid, hs, ?_⟩
      rw [totalCountForSuite_applyIds]
      exact hbig

theorem processSuites_ok_no_failing {fids : List Nat} :
    ∀ (sids : List Nat) (state st' : List CheckSuite),
      processSuites fids sids state = .ok st' →
      ∀ sid ∈ sids, ∀ i ∈ targetsOf state sid, i ∉ fids := by
  intro sids
  induction sids with
  | nil =>
    intro state st' _ sid h
    simp at h
  | cons sid0 rest ih =>
    intro state st' h sid hmem i hi
    rw [processSuites] at h
    cases hps : processSuite fids state sid0 with
    | error e => rw [hps] at h; cases h
    | ok state2 =>
      rw [hps] at h
      obtain ⟨_, hno, hst2⟩ := processSuite_ok hps
      rcases List.mem_cons.1 hmem with rfl | hmem'
      · exact hno i hi
      · refine ih state2 st' h sid hmem' i ?_
        rw [hst2, targetsOf_applyIds]
        exact hi

theorem find?_eq_self_of_nodup :
    ∀ {state : List CheckSuite} {s : CheckSuite},
      (state.map CheckSuite.id).Nodup → s ∈ state →
      state.find? (fun s' => s'.id == s.id) = some s := by
  intro state
  induction state with
  | nil => intro s _ hs; simp at hs
  | cons t rest ih =>
    intro s hnd hs
    rw [List.map_cons, List.nodup_cons] at hnd
    rcases List.mem_cons.1 hs with rfl | hs'
    · rw [List.find?_cons_of_pos _ (by simp)]
    · have hne : (t.id == s.id) = false := by
        simp only [beq_eq_false_iff_ne, ne_eq]
        intro he
        exact hnd.1 (he ▸ List.mem_map_of_mem CheckSuite.id hs')
      rw [List.find?_cons_of_neg _ (by simp [hne])]
      exact ih hnd.2 hs'

theorem runs_id_inj :
    ∀ (state : List CheckSuite),
      ((state.flatMap CheckSuite.runs).map CheckRun.id).Nodup →
      ∀ s ∈ state, ∀ s' ∈ state, ∀ r ∈ s.runs, ∀ r' ∈ s'.runs,
        r.id = r'.id → s = s' ∧ r = r' := by
  intro state
  induction state with
  | nil => intro _ s hs; simp at hs
  | cons t rest ih =>
    intro hnd s hs s' hs' r hr r' hr' hid
    rw [List.flatMap_cons, List.map_append, List.nodup_append] at hnd
    obtain ⟨hnd1, hnd2, hdisj⟩ := hnd
    rcases List.mem_cons.1 hs with rfl | hs2 <;> rcases List.mem_cons.1 hs' with rfl | hs2'
    · exact ⟨rfl, List.inj_on_of_nodup_map hnd1 hr hr' hid⟩
    · exfalso
      have hx1 : r.id ∈ s.runs.map CheckRun.id := List.mem_map_of_mem _ hr
      have hx2 : r'.id ∈ (rest.flatMap CheckSuite.runs).map CheckRun.id :=
        List.mem_map_of_mem _ (List.mem_flatMap.2 ⟨s', hs2', hr'⟩)
      exact hdisj hx1 (hid ▸ hx2)
    · exfalso
      have hx1 : r'.id ∈ s'.runs.map CheckRun.id := List.mem_map_of_mem _ hr'
      have hx2 : r.id ∈ (rest.flatMap CheckSuite.runs).map CheckRun.id :=
        List.mem_map_of_mem _ (List.mem_flatMap.2 ⟨s, hs2, hr⟩)
      exact hdisj hx1 (hid ▸ hx2)
    · exact ih hnd2 s hs2 s' hs2' r hr r' hr' hid

theorem mem_collectTargets {state : List CheckSuite} {i : Nat} :
    ∀ sids : List Nat,
      i ∈ collectTargets state sids ↔ ∃ sid ∈ sids, i ∈ targetsOf state sid := by
  intro sids
  induction sids with
  | nil => simp [collectTargets]
  | cons sid rest ih =>
    simp only [collectTargets, List.mem_append, ih, List.mem_cons]
    constructor
    · rintro (h | ⟨sid', h1, h2⟩)
      · exact ⟨sid, Or.inl rfl, h⟩
      · exact ⟨sid', Or.inr h1, h2⟩
    · rintro ⟨sid', h1 | h1, h2⟩
      · exact Or.inl (h1 ▸ h2)
      · exact Or.inr ⟨sid', h1, h2⟩

/-- The run ids collected over the github-actions suites are exactly the ids
of the targeted runs sitting in github-actions suites (given globally unique
suite and run ids). -/
theorem mem_targets_iff
    {state : List CheckSuite}
    (h1 : (state.map CheckSuite.id).Nodup)
    (h2 : ((state.flatMap CheckSuite.runs).map CheckRun.id).Nodup)
    {s : CheckSuite} (hs : s ∈ state) {r : CheckRun} (hr : r ∈ s.runs) :
    (r.id ∈ collectTargets state
        ((state.filter fun s' => s'.appName == "GitHub Actions").map CheckSuite.id))
      ↔ ((s.appName == "GitHub Actions") = true ∧ isTargetRun r = true) := by
  constructor
  · intro hmem
    obtain ⟨sid, hsid, hit⟩ := (mem_collectTargets _).1 hmem
    obtain ⟨s', hs'f, rfl⟩ := List.mem_map.1 hsid
    have hs'state : s' ∈ state := (List.mem_filter.1 hs'f).1
    have hs'gh : (s'.appName == "GitHub Actions") = true := (List.mem_filter.1 hs'f).2
    unfold targetsOf listForSuite at hit
    rw [find?_eq_self_of_nodup h1 hs'state] at hit
    obtain ⟨r', hr'mem, hr'id⟩ := List.mem_map.1 hit
    have hr's : r' ∈ s'.runs := (List.mem_filter.1 hr'mem).1
    have hr't : isTargetRun r' = true := (List.mem_filter.1 hr'mem).2
    obtain ⟨hss, hrr⟩ :=
      runs_id_inj state h2 s hs s' hs'state r hr r' hr's hr'id.symm
    subst hss
    subst hrr
    exact ⟨hs'gh, hr't⟩
  · rintro ⟨hgh, ht⟩
    refine (mem_collectTargets _).2 ⟨s.id, ?_, ?_⟩
    · exact List.mem_map_of_mem _ (List.mem_filter.2 ⟨hs, hgh⟩)
    · unfold targetsOf listForSuite
      rw [find?_eq_self_of_nodup h1 hs]
      exact List.mem_map_of_mem _ (List.mem_filter.2 ⟨hr, ht⟩)

theorem applyIds_collect_eq_neutralSpec
    {state : List CheckSuite}
    (h1 : (state.map CheckSuite.id).Nodup)
    (h2 : ((state.flatMap CheckSuite.runs).map CheckRun.id).Nodup) :
    applyIds
      (collectTargets state
        ((state.filter fun s' => s'.appName == "GitHub Actions").map CheckSuite.id))
      state = neutralSpec state := by
  unfold applyIds neutralSpec
  apply List.map_congr_left
  intro s hs
  by_cases hgh : (s.appName == "GitHub Actions") = true
  · rw [if_pos hgh]
    have hruns : s.runs.map
        (neutralizeIf (collectTargets state
          ((state.filter fun s' => s'.appName == "GitHub Actions").map CheckSuite.id)))
        = s.runs.map neutralizeRunSpec := by
      apply List.map_congr_left
      intro r hr
      unfold neutralizeIf neutralizeRunSpec
      by_cases ht : isTargetRun r = true
      · rw [if_pos ((mem_targets_iff h1 h2 hs hr).2 ⟨hgh, ht⟩), if_pos ht]
      · rw [if_neg (fun hmem => ht ((mem_targets_iff h1 h2 hs hr).1 hmem).2),
          if_neg ht]
    rw [hruns]
  · rw [if_neg hgh]
    have hruns : s.runs.map
        (neutralizeIf (collectTargets state
          ((state.filter fun s' => s'.appName == "GitHub Actions").map CheckSuite.id)))
        = s.runs := by
      conv_rhs => rw [← List.map_id s.runs]
      apply List.map_congr_left
      intro r hr
      unfold neutralizeIf
      rw [if_neg (fun hmem => hgh ((mem_targets_iff h1 h2 hs hr).1 hmem).1)]
      rfl
    rw [hruns]

/-- Master lemma: with a valid head sha, globally unique suite and run ids,
and no github-actions suite over the pagination ceiling, the neutralizer
succeeds and its outcome is exactly `neutralSpec`. -/
theorem mark_eq_neutralSpec {sha : String} (hsha : sha ≠ "")
    {state : List CheckSuite}
    (h1 : (state.map CheckSuite.id).Nodup)
    (h2 : ((state.flatMap CheckSuite.runs).map CheckRun.id).Nodup)
    (h3 : ∀ s ∈ state, s.appName = "GitHub Actions" → s.total_count ≤ 250) :
    markPreviousRunsAsNeutral [] (some sha) state = .ok (neutralSpec state) := by
  unfold markPreviousRunsAsNeutral
  have hreq : requireValue (some sha) "pr_head_sha" = .ok sha := by
    simp [requireValue, hsha]
  rw [hreq]
  show processSuites []
      ((state.filter fun s => s.appName == "GitHub Actions").map CheckSuite.id) state
    = .ok (neutralSpec state)
  have hceil : ∀ sid ∈ (state.filter fun s' =>
      s'.appName == "GitHub Actions").map CheckSuite.id,
      totalCountForSuite state sid ≤ 250 := by
    intro sid hsid
    obtain ⟨s, hsf, rfl⟩ := List.mem_map.1 hsid
    have hss : s ∈ state := (List.mem_filter.1 hsf).1
    have hgh : (s.appName == "GitHub Actions") = true := (List.mem_filter.1 hsf).2
    unfold totalCountForSuite
    rw [find?_eq_self_of_nodup h1 hss]
    exact h3 s hss (by simpa using hgh)
  rw [processSuites_nil_fids _ state hceil, applyIds_collect_eq_neutralSpec h1 h2]

theorem neutralSpec_fixed {state : List CheckSuite}
    (hneu : ∀ s ∈ state, (s.appName == "GitHub Actions") = true →
        ∀ r ∈ s.runs, isTargetRun r = true → r.conclusion = "neutral") :
    neutralSpec state = state := by
  unfold neutralSpec
  conv_rhs => rw [← List.map_id state]
  apply List.map_congr_left
  intro s hs
  by_cases hgh : (s.appName == "GitHub Actions") = true
  · rw [if_pos hgh]
    have hruns : s.runs.map neutralizeRunSpec = s.runs := by
      conv_rhs => rw [← List.map_id s.runs]
      apply List.map_congr_left
      intro r hr
      unfold neutralizeRunSpec
      by_cases ht : isTargetRun r = true
      · rw [if_pos ht]
        have hc := hneu s hs hgh r hr ht
        obtain ⟨i, nm, st, c⟩ := r
        simp only at hc
        rw [hc]
        rfl
      · rw [if_neg ht]
        rfl
    rw [hruns]
    rfl
  · rw [if_neg hgh]
    rfl

/-- C1: for every pull request not carrying the skip-issue label, if merging
the references scanned from the pull request's title and body yields an
empty or absent collection, the run fails with the missing-reference error
(`The pull request doesn't reference any issue.`) and no success comment is
composed or posted. -/
theorem run_missing_reference
    (env : Env) (pr : PullRequest) (owner repo : String) (suites2 : List CheckSuite)
    (howner : requireValue (env.repository.bind Repo.ownerLogin) "owner" = .ok owner)
    (hrepo : requireValue (env.repository.bind Repo.name) "repository" = .ok repo)
    (hpr : env.pullRequest = some pr)
    (hmark : markPreviousRunsAsNeutral env.failingIds pr.headSha env.suites
      = .ok suites2)
    (hskip : skipValidation env.labels = false)
    (hempty : emptyOrNull (mergeArrays
        [getIssuesIdsFromText pr.title, getIssuesIdsFromText pr.body]) = true) :
    run env
      = ⟨.failed "The pull request doesn\x27t reference any issue.", none⟩ := by
  simp only [run, howner, hrepo, hpr, hmark, hskip,
    getIssuesIdsFromPullRequestProperties, hempty, Bool.false_eq_true, if_false,
    if_true]

/-- C2: for every pull request whose fetched label set contains a label
named `skip-issue`, `run` returns early in the skipped state: no failure is
raised and no comment is composed or posted, regardless of the pull
request's title, body or commits. -/
theorem run_skipped
    (env : Env) (pr : PullRequest) (owner repo : String) (suites2 : List CheckSuite)
    (howner : requireValue (env.repository.bind Repo.ownerLogin) "owner" = .ok owner)
    (hrepo : requireValue (env.repository.bind Repo.name) "repository" = .ok repo)
    (hpr : env.pullRequest = some pr)
    (hmark : markPreviousRunsAsNeutral env.failingIds pr.headSha env.suites
      = .ok suites2)
    (hskip : skipValidation env.labels = true) :
    run env = ⟨.skippedByLabel, none⟩ := by
  simp only [run, howner, hrepo, hpr, hmark, hskip, if_true]

/-- A pull request without issue references in title or body. -/
def prC1 : PullRequest :=
  { number := 7
  , title := some "Refactor parser"
  , body := some "No issue link here."
  , headSha := some "abc123" }

/-- A pull-request event without issue references in title or body and
without the skip label. -/
def envC1 : Env :=
  { repository := some { ownerLogin := some "octo", name := some "hello-world" }
  , pullRequest := some prC1
  , labels := [{ name := "bug" }]
  , suites := []
  , failingIds := []
  , commentStatus := 201 }

theorem run_missing_reference_witness :
    skipValidation envC1.labels = false ∧
    emptyOrNull (mergeArrays
      [getIssuesIdsFromText (some "Refactor parser"),
        getIssuesIdsFromText (some "No issue link here.")]) = true ∧
    run envC1
      = ⟨.failed "The pull request doesn\x27t reference any issue.", none⟩ :=
  ⟨rfl, rfl,
    run_missing_reference envC1 prC1
      "octo" "hello-world" [] rfl rfl rfl rfl rfl rfl⟩

/-- A pull request whose title contains an issue reference. -/
def prC2 : PullRequest :=
  { number := 8
  , title := some "Fixes #12"
  , body := none
  , headSha := some "def456" }

/-- A pull-request event carrying the `skip-issue` label; its title even
contains an issue reference, which must not matter. -/
def envC2 : Env :=
  { repository := some { ownerLogin := some "octo", name := some "hello-world" }
  , pullRequest := some prC2
  , labels := [{ name := "documentation" }, { name := "skip-issue" }]
  , suites := []
  , failingIds := []
  , commentStatus := 201 }

theorem run_skipped_witness :
    skipValidation envC2.labels = true ∧
    run envC2 = ⟨.skippedByLabel, none⟩ :=
  ⟨rfl,
    run_skipped envC2 prC2
      "octo" "hello-world" [] rfl rfl rfl rfl rfl⟩

/-! ## Claims: remaining claim theorems, witnesses and counterexamples -/

/-- C3: the reference scanner returns exactly the substrings matching `#`
followed by one or more ASCII decimal digits, leftmost first with
duplicates kept: absent and empty input give `none`; input with no match
gives `none` (never an error); a match exists exactly when the text has an
occurrence of `#` followed by a digit; every token returned has the
`#`-digits shape; concrete inputs show order, duplicates and maximal
munch. -/
theorem scanner_spec :
    getIssuesIdsFromText none = none ∧
    getIssuesIdsFromText (some "") = none ∧
    (∀ s : String, hasIssueRef s.data = false → getIssuesIdsFromText (some s) = none) ∧
    (∀ s : String, hasIssueRef s.data = true →
      ∃ ms : List String, getIssuesIdsFromText (some s) = some ms ∧ ms ≠ []) ∧
    (∀ (s : String) (ms : List String), getIssuesIdsFromText (some s) = some ms →
      ∀ t ∈ ms, isRefToken t = true) ∧
    getIssuesIdsFromText (some "a #5 b #3 c #5") = some ["#5", "#3", "#5"] ∧
    getIssuesIdsFromText (some "#123") = some ["#123"] := by
  refine ⟨rfl, rfl, ?_, ?_, ?_, by decide, by decide⟩
  · intro s h
    have hnone : scanRefs s.data = [] := (scanRefsAux_nil_of_no_ref s.data).1 h
    unfold getIssuesIdsFromText
    by_cases h1 : s = ""
    · simp [h1]
    · simp [h1, hnone]
  · intro s h
    have hne : scanRefs s.data ≠ [] := (scanRefsAux_ne_nil_of_ref s.data).1 h
    have hcontains : s.data.contains '#' = true :=
      List.elem_eq_true_of_mem (hash_mem_of_hasIssueRef s.data h)
    have hs : s ≠ "" := by
      intro he
      subst he
      simp [hasIssueRef] at h
    refine ⟨scanRefs s.data, ?_, hne⟩
    unfold getIssuesIdsFromText
    simp [hs, hcontains, hne]
    exact hash_mem_of_hasIssueRef s.data h
  · intro s ms hms t ht
    have hms2 : ms = scanRefs s.data := by
      simp only [getIssuesIdsFromText] at hms
      split at hms
      · cases hms
      · split at hms
        · cases hms
        · split at hms
          · cases hms
          · exact (Option.some.inj hms).symm
    subst hms2
    exact scanRefsAux_tokens s.data none (by intro a ha; cases ha) t ht

theorem scanner_spec_witness :
    hasIssueRef "no refs".data = false ∧
    getIssuesIdsFromText (some "no refs") = none :=
  ⟨by decide, scanner_spec.2.2.1 "no refs" (by decide)⟩

/-- C4: merging concatenates all non-absent inputs in input order (all
absent gives the absent result), and `distinct` keeps the first occurrence
of each token in input order; in particular scanning
`Fixes #12 and #7, see #12` yields `[#12, #7, #12]` and deduplication
yields `[#12, #7]`. -/
theorem merge_and_distinct_spec :
    (∀ arrays : List (Option (List String)),
      (∀ a ∈ arrays, a = none) → mergeArrays arrays = none) ∧
    (∀ arrays : List (Option (List String)),
      (∃ a ∈ arrays, a ≠ none) → mergeArrays arrays = some (joinOpts arrays)) ∧
    (∀ l : List String, distinct l = keepFirst l) ∧
    getIssuesIdsFromText (some "Fixes #12 and #7, see #12")
      = some ["#12", "#7", "#12"] ∧
    distinct ["#12", "#7", "#12"] = ["#12", "#7"] :=
  ⟨fun a h => mergeArrays_all_none a h, fun a h => mergeArrays_some a h,
    fun l => distinct_eq_keepFirst l, by decide, by decide⟩

theorem merge_and_distinct_spec_witness :
    (∃ a ∈ [some ["#12"], (none : Option (List String))], a ≠ none) ∧
    mergeArrays [some ["#12"], (none : Option (List String))]
      = some (joinOpts [some ["#12"], (none : Option (List String))]) :=
  ⟨by decide, merge_and_distinct_spec.2.1 _ (by decide)⟩

/-- C5: given globally unique suite and run ids and no github-actions suite
above the pagination ceiling, the neutralizer rewrites to `neutral` the
conclusion of exactly the completed runs named `Check Commit Messages`
inside suites owned by `GitHub Actions` (that is what `neutralSpec` does),
and touches no in-flight run, no differently named run, and no run of
another application. -/
theorem neutralizer_targets_exactly (sha : String) (hsha : sha ≠ "")
    (state : List CheckSuite)
    (h1 : (state.map CheckSuite.id).Nodup)
    (h2 : ((state.flatMap CheckSuite.runs).map CheckRun.id).Nodup)
    (h3 : ∀ s ∈ state, s.appName = "GitHub Actions" → s.total_count ≤ 250) :
    markPreviousRunsAsNeutral [] (some sha) state = .ok (neutralSpec state) :=
  mark_eq_neutralSpec hsha h1 h2 h3

/-- A github-actions suite holding one completed targeted run, one
in-flight run of the same name and one completed run of another name,
next to a suite of another application. -/
def exStateC5 : List CheckSuite :=
  [ { id := 10, appName := "GitHub Actions", total_count := 3
    , runs :=
      [ { id := 1, name := "Check Commit Messages", status := "completed"
        , conclusion := "failure" }
      , { id := 2, name := "Check Commit Messages", status := "in_progress"
        , conclusion := "" }
      , { id := 3, name := "Other Check", status := "completed"
        , conclusion := "success" } ] }
  , { id := 11, appName := "Some App", total_count := 1
    , runs :=
      [ { id := 4, name := "Check Commit Messages", status := "completed"
        , conclusion := "failure" } ] } ]

theorem neutralizer_targets_exactly_witness :
    ("sha5" : String) ≠ "" ∧
    markPreviousRunsAsNeutral [] (some "sha5") exStateC5
      = .ok (neutralSpec exStateC5) ∧
    neutralSpec exStateC5 =
      [ { id := 10, appName := "GitHub Actions", total_count := 3
        , runs :=
          [ { id := 1, name := "Check Commit Messages", status := "completed"
            , conclusion := "neutral" }
          , { id := 2, name := "Check Commit Messages", status := "in_progress"
            , conclusion := "" }
          , { id := 3, name := "Other Check", status := "completed"
            , conclusion := "success" } ] }
      , { id := 11, appName := "Some App", total_count := 1
        , runs :=
          [ { id := 4, name := "Check Commit Messages", status := "completed"
            , conclusion := "failure" } ] } ] :=
  ⟨by decide,
    neutralizer_targets_exactly "sha5" (by decide) exStateC5 (by decide)
      (by decide) (by decide),
    by decide⟩

/-- The suite used by the C6 counterexample and the C6 amended claim: one
github-actions suite with two completed targeted runs. -/
def exStateC6 : List CheckSuite :=
  [ { id := 20, appName := "GitHub Actions", total_count := 2
    , runs :=
      [ { id := 1, name := "Check Commit Messages", status := "completed"
        , conclusion := "failure" }
      , { id := 2, name := "Check Commit Messages", status := "completed"
        , conclusion := "failure" } ] } ]

/-- C6 counterexample: an update failure on the first targeted run is not
caught, logged and skipped — it aborts the whole neutralization step with
an error, although no suite-size ceiling is violated. -/
theorem update_failure_aborts_counterexample :
    markPreviousRunsAsNeutral [1] (some "sha6") exStateC6
      = .error ("Failed to update check run " ++ toString (1 : Nat)) ∧
    (∀ s ∈ exStateC6, s.total_count ≤ 250) := by
  exact ⟨rfl, by decide⟩

/-- C6 amended: a failure to update the conclusion of one check run aborts
the neutralization step — the error propagates, so the step only succeeds
when no targeted run's update failed (besides the suite-size ceiling
violation, which also aborts the step). -/
theorem update_failure_aborts_neutralization
    (fids : List Nat) (sha : String) (state st' : List CheckSuite)
    (h1 : (state.map CheckSuite.id).Nodup)
    (hok : markPreviousRunsAsNeutral fids (some sha) state = .ok st') :
    ∀ s ∈ state, s.appName = "GitHub Actions" →
      ∀ r ∈ s.runs, isTargetRun r = true → r.id ∉ fids := by
  intro s hs hgh r hr ht
  unfold markPreviousRunsAsNeutral at hok
  by_cases hsha : sha = ""
  · rw [show requireValue (some sha) "pr_head_sha"
        = .error ("Missing value for " ++ "pr_head_sha") from by
      simp [requireValue, hsha]] at hok
    cases hok
  · rw [show requireValue (some sha) "pr_head_sha" = .ok sha from by
      simp [requireValue, hsha]] at hok
    have hok2 : processSuites fids
        ((state.filter fun s' => s'.appName == "GitHub Actions").map CheckSuite.id)
        state = .ok st' := hok
    refine processSuites_ok_no_failing _ _ _ hok2 s.id ?_ r.id ?_
    · exact List.mem_map_of_mem _ (List.mem_filter.2 ⟨hs, by simp [hgh]⟩)
    · unfold targetsOf listForSuite
      rw [find?_eq_self_of_nodup h1 hs]
      exact List.mem_map_of_mem _ (List.mem_filter.2 ⟨hr, ht⟩)

theorem update_failure_aborts_neutralization_witness :
    markPreviousRunsAsNeutral [99] (some "sha6") exStateC6
      = .ok
        [ { id := 20, appName := "GitHub Actions", total_count := 2
          , runs :=
            [ { id := 1, name := "Check Commit Messages", status := "completed"
              , conclusion := "neutral" }
            , { id := 2, name := "Check Commit Messages", status := "completed"
              , conclusion := "neutral" } ] } ] ∧
    (1 : Nat) ∉ ([99] : List Nat) :=
  ⟨rfl,
    update_failure_aborts_neutralization [99] "sha6" exStateC6
      [ { id := 20, appName := "GitHub Actions", total_count := 2
        , runs :=
          [ { id := 1, name := "Check Commit Messages", status := "completed"
            , conclusion := "neutral" }
          , { id := 2, name := "Check Commit Messages", status := "completed"
            , conclusion := "neutral" } ] } ]
      (by decide) rfl
      { id := 20, appName := "GitHub Actions", total_count := 2
      , runs :=
        [ { id := 1, name := "Check Commit Messages", status := "completed"
          , conclusion := "failure" }
        , { id := 2, name := "Check Commit Messages", status := "completed"
          , conclusion := "failure" } ] }
      (by decide) rfl
      { id := 1, name := "Check Commit Messages", status := "completed"
      , conclusion := "failure" }
      (by decide) rfl⟩

/-- C7: for every suite processed by the neutralizer (owned by
`GitHub Actions`) whose reported `total_count` exceeds 250, neutralization
fails loudly with the fixed error instead of processing a partial set. -/
theorem suite_ceiling_fails_loudly (sha : String) (hsha : sha ≠ "")
    (state : List CheckSuite)
    (h1 : (state.map CheckSuite.id).Nodup)
    (s : CheckSuite) (hs : s ∈ state)
    (hgh : s.appName = "GitHub Actions") (hbig : s.total_count > 250) :
    markPreviousRunsAsNeutral [] (some sha) state
      = .error "More than 250 check runs are not supported" := by
  unfold markPreviousRunsAsNeutral
  rw [show requireValue (some sha) "pr_head_sha" = .ok sha from by
    simp [requireValue, hsha]]
  show processSuites []
      ((state.filter fun s' => s'.appName == "GitHub Actions").map CheckSuite.id)
      state = .error "More than 250 check runs are not supported"
  apply processSuites_ceiling
  refine ⟨s.id, List.mem_map_of_mem _ (List.mem_filter.2 ⟨hs, by simp [hgh]⟩), ?_⟩
  unfold totalCountForSuite
  rw [find?_eq_self_of_nodup h1 hs]
  exact hbig

/-- A github-actions suite reporting 251 check runs. -/
def exStateC7 : List CheckSuite :=
  [{ id := 30, appName := "GitHub Actions", total_count := 251, runs := [] }]

theorem suite_ceiling_fails_loudly_witness :
    (251 : Nat) > 250 ∧
    markPreviousRunsAsNeutral [] (some "sha7") exStateC7
      = .error "More than 250 check runs are not supported" :=
  ⟨by decide,
    suite_ceiling_fails_loudly "sha7" (by decide) exStateC7 (by decide)
      { id := 30, appName := "GitHub Actions", total_count := 251, runs := [] }
      (by decide) rfl (by decide)⟩

/-- C8: the comment composer errors on an empty list (programming error);
on a singleton it produces the singular-form message containing the
reference; on two or more it produces the plural-form message with all
references comma-joined in input order; every produced message carries the
fixed celebratory emoji suffix. -/
theorem comment_composer_spec :
    getPositiveCommentBody [] = .error "Expected a populated array of issues ids." ∧
    (∀ x : String, getPositiveCommentBody [x]
      = .ok ("Great! The PR references this issue: " ++ x
          ++ " :sparkles: :cake: :sparkles:")) ∧
    (∀ (x y : String) (rest : List String), getPositiveCommentBody (x :: y :: rest)
      = .ok ("Great! The PR references these issues: "
          ++ String.intercalate ", " (x :: y :: rest)
          ++ " :sparkles: :cake: :sparkles:")) := by
  have hem : (" " ++ ":sparkles: :cake: :sparkles:" : String)
      = " :sparkles: :cake: :sparkles:" := rfl
  refine ⟨rfl, ?_, ?_⟩
  · intro x
    simp only [getPositiveCommentBody]
    rw [if_neg (by simp), if_pos (by simp)]
    rw [show [x].headD "" = x from rfl]
    rw [String.append_assoc, hem]
  · intro x y rest
    simp only [getPositiveCommentBody]
    rw [if_neg (by simp), if_neg (by simp)]
    rw [String.append_assoc, hem]

/-- C9: rerunning the neutralizer on a state whose targeted runs are
already `neutral` leaves the state unchanged (every targeted conclusion
stays `neutral`), even though the update calls are re-issued. -/
theorem neutralizer_idempotent (sha : String) (hsha : sha ≠ "")
    (state : List CheckSuite)
    (h1 : (state.map CheckSuite.id).Nodup)
    (h2 : ((state.flatMap CheckSuite.runs).map CheckRun.id).Nodup)
    (h3 : ∀ s ∈ state, s.appName = "GitHub Actions" → s.total_count ≤ 250)
    (hneu : ∀ s ∈ state, (s.appName == "GitHub Actions") = true →
        ∀ r ∈ s.runs, isTargetRun r = true → r.conclusion = "neutral") :
    markPreviousRunsAsNeutral [] (some sha) state = .ok state := by
  rw [mark_eq_neutralSpec hsha h1 h2 h3, neutralSpec_fixed hneu]

/-- A github-actions suite whose only targeted run is already neutral. -/
def exStateC9 : List CheckSuite :=
  [ { id := 40, appName := "GitHub Actions", total_count := 2
    , runs :=
      [ { id := 5, name := "Check Commit Messages", status := "completed"
        , conclusion := "neutral" }
      , { id := 6, name := "Check Commit Messages", status := "queued"
        , conclusion := "" } ] } ]

theorem neutralizer_idempotent_witness :
    markPreviousRunsAsNeutral [] (some "sha9") exStateC9 = .ok exStateC9 :=
  neutralizer_idempotent "sha9" (by decide) exStateC9 (by decide) (by decide)
    (by decide) (by decide)

/-- C10: for every list of commits, `getIssueIdsFromCommitMessages` returns
the empty list — the `issueIds` accumulator is never appended to, so no
issue reference is ever discovered from commit messages, even when every
message contains `#`-digit tokens. -/
theorem commit_collector_returns_empty :
    (∀ commits : List Commit, getIssueIdsFromCommitMessages commits = []) ∧
    getIssueIdsFromCommitMessages
      [{ sha := "abc", message := "Fixes #12 and #7" }] = [] := by
  have hall : ∀ commits : List Commit, getIssueIdsFromCommitMessages commits = [] := by
    intro commits
    unfold getIssueIdsFromCommitMessages
    have h : ∀ (cs : List Commit) (acc : List String),
        cs.foldl
          (fun acc item =>
            let _issuesIds := getIssuesIdsFromText (some item.message)
            acc)
          acc = acc := by
      intro cs
      induction cs with
      | nil => intro acc; rfl
      | cons c rest ih =>
        intro acc
        rw [List.foldl_cons]
        exact ih acc
    show distinct (commits.foldl
      (fun acc item =>
        let _issuesIds := getIssuesIdsFromText (some item.message)
        acc) []) = []
    rw [h]
    rfl
  exact ⟨hall, hall _⟩

end GhAction
